import Mathlib

set_option maxRecDepth 10000

/-!
Verification of the LCRA flood-status scraper's value normalizers.

This file shallowly embeds the two normalization routines of
`scraper/__init__.py` — `LCRAFloodDataScraper.parse_datetime` (the
timestamp normalizer, called `normalize_timestamp` in the design
document) and `LCRAFloodDataScraper.parse_float` (the numeric
normalizer, `normalize_number`) — and proves or refutes the design
document's claims about them.

Modelling conventions:
* Python's dynamic values are the inductive `PyVal` (absent, string,
  int, float).  Python `float` is modelled by `Rat` with exact decimal
  semantics: parsing a decimal string yields the exact rational it
  denotes (no IEEE-754 rounding).
* Python exceptions are the inductive `PyExc`; functions that can raise
  return `Except PyExc _`.  Library calls whose documented failure mode
  is `ValueError` (`float`, `datetime.strptime`,
  `datetime.fromisoformat`) are modelled as `Option`-returning parsers
  lifted with `ofOption`, which produces `.error .valueError`.
* Strings are handled through their character lists; `\d` in the
  source's regexes and `str.strip` are modelled over ASCII, which
  covers every input the design document discusses.
* `re.search` with its leftmost-match, greedy, backtracking semantics
  is modelled by nondeterministic parsers returning candidate lists in
  regex priority order; `re.search` takes the first candidate at the
  leftmost matching position.
* `datetime.strptime` is modelled per directive, following the regexes
  CPython's `_strptime` builds: `%m` is `1[0-2]|0[1-9]|[1-9]`, `%d` is
  `3[01]|[12]\d|0[1-9]|[1-9]`, `%Y` is `\d\d\d\d`, `%H` is
  `2[0-3]|[0-1]\d|\d`, `%I` is `1[0-2]|0[1-9]|[1-9]`, `%M` is
  `[0-5]\d|\d`, `%S` is `6[0-1]|[0-5]\d|\d`, `%p` is `AM|PM`
  case-insensitively, and whitespace in the format matches one or more
  spaces.  The subsequent `datetime` constructor validation (calendar
  validity, `second <= 59`, `year >= 1`) is `mkDatetimeChecked`.
* `datetime.fromisoformat` is modelled on CPython 3.11+ extended-format
  behaviour for `YYYY-MM-DD`, an arbitrary single separator character,
  and `HH:MM[:SS[.fff...]]` with an optional `+HH:MM[:SS]` / `-HH:MM[:SS]`
  offset.
-/

/-! ## Characters and digit strings -/

def isDigitChar (c : Char) : Bool := 48 ≤ c.toNat && c.toNat ≤ 57

def digitVal (c : Char) : Nat := c.toNat - 48

/-- The decimal digit characters, used to render numbers. -/
def digitChar : Nat → Char
  | 0 => '0' | 1 => '1' | 2 => '2' | 3 => '3' | 4 => '4'
  | 5 => '5' | 6 => '6' | 7 => '7' | 8 => '8' | _ => '9'

/-- Value of a big-endian digit string (the accumulator fold a strict
decimal parser performs). -/
def digitsToNat (l : List Char) : Nat := l.foldl (fun a c => 10 * a + digitVal c) 0

/-- Little-endian digit-string value, the induction-friendly twin of
`digitsToNat`. -/
def ofDigitsLE (l : List Char) : Nat := l.foldr (fun c a => 10 * a + digitVal c) 0

/-- Little-endian digit rendering with explicit fuel (one digit per unit
of fuel), so that it reduces by `decide`. -/
def digitsAuxLE : Nat → Nat → List Char
  | 0, _ => []
  | fuel + 1, n => if n = 0 then [] else digitChar (n % 10) :: digitsAuxLE fuel (n / 10)

/-- Big-endian decimal rendering of a natural number, `['0']` for zero. -/
def natDigitsBE (n : Nat) : List Char :=
  if n = 0 then ['0'] else (digitsAuxLE (n + 1) n).reverse

/-- Left-pad a digit string with `'0'` to length `k`. -/
def padZeros (k : Nat) (l : List Char) : List Char :=
  List.replicate (k - l.length) '0' ++ l

/-- Python `str.strip` whitespace set (ASCII portion). -/
def pyIsSpace (c : Char) : Bool :=
  c.toNat == 32 || c.toNat == 9 || c.toNat == 10 || c.toNat == 13 || c.toNat == 11 || c.toNat == 12

/-- Python `str.strip()` on a character list. -/
def pyStripL (l : List Char) : List Char :=
  ((l.dropWhile pyIsSpace).reverse.dropWhile pyIsSpace).reverse

/-- Two-digit value helper. -/
def dd (a b : Char) : Nat := 10 * digitVal a + digitVal b

/-! ## Python runtime model -/

/-- A raw value as the scraper receives it from the agency JSON:
absent (`None`), text, or an already-numeric int/float. -/
inductive PyVal where
  | none
  | str (s : String)
  | int (n : Int)
  | float (q : Rat)
  deriving DecidableEq

/-- Python exception kinds relevant to the normalizers.  `float`,
`strptime` and `fromisoformat` raise `ValueError` on malformed input;
`float` on an out-of-range int raises `OverflowError` (which
`except ValueError` does not catch); `otherError` stands for every
other exception class, so that the model's `except ValueError` clauses
genuinely discriminate. -/
inductive PyExc where
  | valueError
  | overflowError
  | otherError
  deriving DecidableEq

/-- Lift a fallible parse whose documented failure is `ValueError`. -/
def ofOption {α : Type} (o : Option α) : Except PyExc α :=
  match o with
  | some a => .ok a
  | Option.none => .error .valueError

deriving instance DecidableEq for Except

/-- A `datetime.datetime` value.  `tzoffset` is `some` seconds east of
UTC for an aware value and `none` for a naive one. -/
structure PyDatetime where
  year : Nat
  month : Nat
  day : Nat
  hour : Nat
  minute : Nat
  second : Nat
  microsecond : Nat
  tzoffset : Option Int
  deriving DecidableEq, Repr

/-- Python truthiness of a raw value: `None`, `""`, `0` and `0.0` are
falsy. -/
def pyFalsy : PyVal → Bool
  | .none => true
  | .str s => decide (s.data = [])
  | .int n => decide (n = 0)
  | .float q => decide (q = 0)

/-! ## The numeric normalizer, `parse_float` -/

/-- The sentinel list `["/", "N/A", "n/a", "--"]` from
`parse_float`'s membership test (the `None` member of the Python list
is subsumed by the preceding truthiness test). -/
def sentinelStrs : List (List Char) := [['/'], ['N', '/', 'A'], ['n', '/', 'a'], ['-', '-']]

/-- `text in ["/", "N/A", "n/a", "--", None]` — only a string can
compare equal to the listed strings, and `None` is falsy anyway. -/
def isSentinelVal : PyVal → Bool
  | .str s => decide (s.data ∈ sentinelStrs)
  | _ => false

/-- `re.sub(r"[^\d.-]", "", text.strip())`: strip surrounding
whitespace, then delete every character that is not a digit, a dot or a
minus sign. -/
def cleanNumericL (l : List Char) : List Char :=
  (pyStripL l).filter (fun c => isDigitChar c || c = '.' || c = '-')

/-- Python `float()` on an unsigned string over digits and `'.'`:
optional integer part, optional single dot, optional fraction part, at
least one digit overall. -/
def parseUnsignedDec (l : List Char) : Option Rat :=
  match l.dropWhile isDigitChar with
  | [] =>
    if l.takeWhile isDigitChar = [] then Option.none
    else some ((digitsToNat (l.takeWhile isDigitChar) : Nat) : Rat)
  | c :: fr =>
    if c = '.' then
      if fr.all isDigitChar ∧ (l.takeWhile isDigitChar ≠ [] ∨ fr ≠ []) then
        some (Rat.divInt (digitsToNat (l.takeWhile isDigitChar) * 10 ^ fr.length + digitsToNat fr : Nat)
          ((10 ^ fr.length : Nat) : Int))
      else Option.none
    else Option.none

/-- Python `float()` restricted to the alphabet `parse_float` can hand
it (digits, `'.'`, `'-'`): an optional leading minus then an unsigned
decimal literal.  Returns `none` where `float()` raises `ValueError`. -/
def pyFloatOfClean : List Char → Option Rat
  | [] => Option.none
  | c :: rest => if c = '-' then (parseUnsignedDec rest).map (fun q => -q) else parseUnsignedDec (c :: rest)

/-- Number of times `p` divides `n`, with explicit fuel. -/
def countFactor (p : Nat) : Nat → Nat → Nat
  | 0, _ => 0
  | fuel + 1, n => if n ≠ 0 ∧ n % p = 0 ∧ 2 ≤ p then countFactor p fuel (n / p) + 1 else 0

/-- The number of decimal places of a rational: the least `k` with
`q * 10 ^ k` an integer, or `none` when `q` has no finite decimal
expansion (impossible for a Python float). -/
def decExp? (q : Rat) : Option Nat :=
  if q.den = 2 ^ countFactor 2 q.den q.den * 5 ^ countFactor 5 q.den q.den then
    some (max (countFactor 2 q.den q.den) (countFactor 5 q.den q.den))
  else Option.none

/-- `|q| * 10 ^ k` as a natural number, valid when `q.den` divides
`10 ^ k` (integer arithmetic on `num`/`den`, so that it evaluates by
kernel reduction). -/
def scaled10 (q : Rat) (k : Nat) : Nat := q.num.natAbs * (10 ^ k / q.den)

/-- Fixed-notation rendering with `k ≥ 1` decimal places, as Python
prints floats whose magnitude is in `[1e-4, 1e16)` (and zero). -/
def fixedRender (q : Rat) (k : Nat) : List Char :=
  (if q < 0 then ['-'] else []) ++ natDigitsBE (scaled10 q k / 10 ^ k) ++
    '.' :: padZeros k (natDigitsBE (scaled10 q k % 10 ^ k))

/-- Strip trailing `'0'` characters. -/
def stripTrailZeros (l : List Char) : List Char :=
  (l.reverse.dropWhile (fun c => c = '0')).reverse

/-- Scientific-notation rendering (`1e+16`, `1.5e+16`, `2e-05`) as
Python prints floats outside the fixed range, for a value with `k`
decimal places. -/
def sciRender (q : Rat) (k : Nat) : List Char :=
  let n := scaled10 q k
  let ds := natDigitsBE n
  let e10 : Int := (ds.length : Int) - 1 - (k : Int)
  let tl := stripTrailZeros ds.tail
  let mant := match ds with
    | [] => ['0']
    | d :: _ => if tl = [] then [d] else d :: '.' :: tl
  (if q < 0 then ['-'] else []) ++ mant ++ 'e' :: (if e10 < 0 then '-' else '+') :: padZeros 2 (natDigitsBE e10.natAbs)

/-- Python `str()` of a float, under the exact-decimal model: shortest
decimal digits, fixed notation for zero and for magnitudes in
`[1e-4, 1e16)`, scientific notation otherwise.  The range test is
written on `num`/`den`: `q.den ≤ 10000 * q.num.natAbs` is
`1/10000 ≤ |q|` and `q.num.natAbs < 10 ^ 16 * q.den` is `|q| < 10^16`.
(Every Python float has a finite decimal expansion; the `"?"` branch is
unreachable for values `parse_float` can produce from decimal text.) -/
def pyStr (q : Rat) : String :=
  if q = 0 then "0.0"
  else
    match decExp? q with
    | Option.none => "?"
    | some k =>
      if q.den ≤ 10000 * q.num.natAbs ∧ q.num.natAbs < 10 ^ 16 * q.den then ⟨fixedRender q (max k 1)⟩
      else ⟨sciRender q k⟩

/-! ## Calendar validation (the `datetime` constructor) -/

def isLeapYear (y : Nat) : Bool := (y % 4 == 0 && y % 100 != 0) || y % 400 == 0

def daysInMonth (y m : Nat) : Nat :=
  if m = 2 then (if isLeapYear y then 29 else 28)
  else if m = 4 ∨ m = 6 ∨ m = 9 ∨ m = 11 then 30
  else 31

def validYMD (y m d : Nat) : Bool :=
  decide (1 ≤ m) && decide (m ≤ 12) && decide (1 ≤ d) && decide (d ≤ daysInMonth y m)

/-- The `datetime(...)` constructor's range validation, producing a
naive value or raising `ValueError` (as `none`). -/
def mkDatetimeChecked (y mo d h mi s : Nat) : Option PyDatetime :=
  if 1 ≤ y ∧ y ≤ 9999 ∧ validYMD y mo d ∧ h ≤ 23 ∧ mi ≤ 59 ∧ s ≤ 59 then
    some ⟨y, mo, d, h, mi, s, 0, Option.none⟩
  else Option.none

/-! ## `datetime.fromisoformat` -/

/-- Parse an exact ten-character extended-format ISO date
`YYYY-MM-DD`, with the constructor's calendar validation. -/
def parseDate10 (l : List Char) : Option (Nat × Nat × Nat) :=
  match l with
  | [y1, y2, y3, y4, c1, mo1, mo2, c2, d1, d2] =>
    if c1 = '-' ∧ c2 = '-' ∧ isDigitChar y1 ∧ isDigitChar y2 ∧ isDigitChar y3 ∧ isDigitChar y4 ∧
        isDigitChar mo1 ∧ isDigitChar mo2 ∧ isDigitChar d1 ∧ isDigitChar d2 then
      let y := digitsToNat [y1, y2, y3, y4]
      let mo := dd mo1 mo2
      let d := dd d1 d2
      if 1 ≤ y ∧ validYMD y mo d then some (y, mo, d) else Option.none
    else Option.none
  | _ => Option.none

/-- Microseconds from a nonempty fractional-digit string, truncated to
six digits as CPython does. -/
def microOf (ds : List Char) : Nat :=
  if ds.length ≤ 6 then digitsToNat ds * 10 ^ (6 - ds.length) else digitsToNat (ds.take 6)

/-- Consume the (nonempty) run of fractional digits, returning the
microsecond value and the remaining characters. -/
def parseFrac (l : List Char) : Option (Nat × List Char) :=
  if l.takeWhile isDigitChar = [] then Option.none
  else some (microOf (l.takeWhile isDigitChar), l.dropWhile isDigitChar)

/-- Signed offset seconds from `hh`, `mm`, `ss`. -/
def tzVal (sign : Char) (hh mm ss : Nat) : Int :=
  let m : Int := (hh * 3600 + mm * 60 + ss : Nat)
  if sign = '-' then -m else m

/-- A trailing UTC-offset suffix `+HH:MM`, `-HH:MM`, `+HH:MM:SS` or
`-HH:MM:SS`, which must reach the end of the string. -/
def parseTzIso (l : List Char) : Option Int :=
  match l with
  | sign :: h1 :: h2 :: ':' :: m1 :: m2 :: rest =>
    if (sign = '+' ∨ sign = '-') ∧ isDigitChar h1 ∧ isDigitChar h2 ∧ isDigitChar m1 ∧ isDigitChar m2 ∧
        dd h1 h2 ≤ 23 ∧ dd m1 m2 ≤ 59 then
      match rest with
      | [] => some (tzVal sign (dd h1 h2) (dd m1 m2) 0)
      | ':' :: s1 :: s2 :: [] =>
        if isDigitChar s1 ∧ isDigitChar s2 ∧ dd s1 s2 ≤ 59 then
          some (tzVal sign (dd h1 h2) (dd m1 m2) (dd s1 s2))
        else Option.none
      | _ => Option.none
    else Option.none
  | _ => Option.none

/-- The time-of-day part `HH:MM[:SS[.ffffff]]` with optional offset
suffix: hour, minute, second, microsecond, offset. -/
def parseTimeIso (l : List Char) : Option (Nat × Nat × Nat × Nat × Option Int) :=
  match l with
  | h1 :: h2 :: ':' :: m1 :: m2 :: rest =>
    if isDigitChar h1 ∧ isDigitChar h2 ∧ isDigitChar m1 ∧ isDigitChar m2 ∧
        dd h1 h2 ≤ 23 ∧ dd m1 m2 ≤ 59 then
      let hh := dd h1 h2
      let mm := dd m1 m2
      match rest with
      | [] => some (hh, mm, 0, 0, Option.none)
      | ':' :: s1 :: s2 :: rest2 =>
        if isDigitChar s1 ∧ isDigitChar s2 ∧ dd s1 s2 ≤ 59 then
          match rest2 with
          | [] => some (hh, mm, dd s1 s2, 0, Option.none)
          | '.' :: rest3 =>
            match parseFrac rest3 with
            | some (us, rest4) =>
              match rest4 with
              | [] => some (hh, mm, dd s1 s2, us, Option.none)
              | _ => (parseTzIso rest4).map (fun tz => (hh, mm, dd s1 s2, us, some tz))
            | Option.none => Option.none
          | tzl => (parseTzIso tzl).map (fun tz => (hh, mm, dd s1 s2, 0, some tz))
        else Option.none
      | tzl => (parseTzIso tzl).map (fun tz => (hh, mm, 0, 0, some tz))
    else Option.none
  | _ => Option.none

/-- `datetime.fromisoformat` (CPython 3.11+ extended format): a
ten-character date, then optionally any single separator character and
a time-of-day with optional offset.  Raises `ValueError` otherwise. -/
def fromisoformat (l : List Char) : Except PyExc PyDatetime :=
  match parseDate10 (l.take 10) with
  | Option.none => .error .valueError
  | some (y, mo, d) =>
    match l.drop 10 with
    | [] => .ok ⟨y, mo, d, 0, 0, 0, 0, Option.none⟩
    | _ :: tc =>
      match parseTimeIso tc with
      | some (h, mi, s, us, tz) => .ok ⟨y, mo, d, h, mi, s, us, tz⟩
      | Option.none => .error .valueError

/-! ## The ISO cleaning step of `parse_datetime` -/

/-- Characters before the first occurrence of `c` (Python
`s.split(c)[0]`). -/
def beforeFirst (c : Char) (l : List Char) : List Char := l.takeWhile (fun x => x ≠ c)

/-- Characters after the first occurrence of `c` (everything, when `c`
does not occur). -/
def dropThroughFirst (c : Char) : List Char → List Char
  | [] => []
  | x :: xs => if x = c then xs else dropThroughFirst c xs

/-- `text.split("T")[1]`: the characters between the first and second
occurrence of `'T'`. -/
def secondTPart (l : List Char) : List Char := beforeFirst 'T' (dropThroughFirst 'T' l)

/-- `text.split("T")[1].split("+")[0].split("-")[0].split("Z")[0]`. -/
def isoTimePart (l : List Char) : List Char :=
  beforeFirst 'Z' (beforeFirst '-' (beforeFirst '+' (secondTPart l)))

/-- `(text.split("T")[0] + " " + ...).replace("Z", "")`: the string the
source hands to `datetime.fromisoformat`. -/
def isoClean (l : List Char) : List Char :=
  ((beforeFirst 'T' l) ++ ' ' :: isoTimePart l).filter (fun c => c ≠ 'Z')

/-! ## The regex pattern fallback

Nondeterministic matchers: each returns every way to match a pattern
element at the current position, in regex backtracking priority order
(greedy quantifiers longest-first, alternations left-first).  `re.search`
semantics is "first candidate at the leftmost matching position". -/

/-- `\d{1,2}` (greedy: two digits preferred), capturing its text. -/
def reD12 (l : List Char) : List (List Char × List Char) :=
  (match l with
   | a :: b :: r => if isDigitChar a && isDigitChar b then [([a, b], r)] else []
   | _ => []) ++
  (match l with
   | a :: r => if isDigitChar a then [([a], r)] else []
   | _ => [])

/-- `\d{2}`, capturing its text. -/
def reD2cap (l : List Char) : List (List Char × List Char) :=
  match l with
  | a :: b :: r => if isDigitChar a && isDigitChar b then [([a, b], r)] else []
  | _ => []

/-- `\d{4}`, capturing its text. -/
def reD4cap (l : List Char) : List (List Char × List Char) :=
  match l with
  | a :: b :: c :: d :: r =>
    if isDigitChar a && isDigitChar b && isDigitChar c && isDigitChar d then [([a, b, c, d], r)] else []
  | _ => []

/-- A literal character. -/
def reLit (c : Char) (l : List Char) : List (Unit × List Char) :=
  match l with
  | x :: r => if x = c then [((), r)] else []
  | _ => []

/-- `\s+` (greedy). -/
def reSpaces1 (l : List Char) : List (Unit × List Char) :=
  let n := (l.takeWhile pyIsSpace).length
  (List.range n).map (fun i => ((), l.drop (n - i)))

/-- `\s*` (greedy). -/
def reSpaces0 (l : List Char) : List (Unit × List Char) :=
  let n := (l.takeWhile pyIsSpace).length
  (List.range (n + 1)).map (fun i => ((), l.drop (n - i)))

/-- `(AM|PM)?` under `re.IGNORECASE`, capturing the matched text;
matching is preferred over skipping. -/
def reMeridiemOpt (l : List Char) : List (Option (List Char) × List Char) :=
  (match l with
   | a :: m :: r =>
     (if (a = 'A' ∨ a = 'a') ∧ (m = 'M' ∨ m = 'm') then [(some [a, m], r)] else []) ++
     (if (a = 'P' ∨ a = 'p') ∧ (m = 'M' ∨ m = 'm') then [(some [a, m], r)] else [])
   | _ => []) ++ [(Option.none, l)]

/-- Capture groups of the four patterns: date text, time text, and the
optional meridiem text (`None` for the two patterns without the
group, and for an unmatched optional group). -/
abbrev SG := List Char × List Char × Option (List Char)

/-- `(\d{1,2}/\d{1,2}/\d{4})\s+(\d{1,2}:\d{2}:\d{2})\s*(AM|PM)?` at the
current position. -/
def matchP1At (l : List Char) : List SG :=
  (reD12 l).flatMap fun (a, r1) =>
  (reLit '/' r1).flatMap fun (_, r2) =>
  (reD12 r2).flatMap fun (b, r3) =>
  (reLit '/' r3).flatMap fun (_, r4) =>
  (reD4cap r4).flatMap fun (c, r5) =>
  (reSpaces1 r5).flatMap fun (_, r6) =>
  (reD12 r6).flatMap fun (h, r7) =>
  (reLit ':' r7).flatMap fun (_, r8) =>
  (reD2cap r8).flatMap fun (mi, r9) =>
  (reLit ':' r9).flatMap fun (_, r10) =>
  (reD2cap r10).flatMap fun (s, r11) =>
  (reSpaces0 r11).flatMap fun (_, r12) =>
  (reMeridiemOpt r12).map fun (p, _) =>
  (a ++ '/' :: b ++ '/' :: c, h ++ ':' :: mi ++ ':' :: s, p)

/-- `(\d{1,2}/\d{1,2}/\d{4})\s+(\d{1,2}:\d{2})\s*(AM|PM)?` at the
current position. -/
def matchP2At (l : List Char) : List SG :=
  (reD12 l).flatMap fun (a, r1) =>
  (reLit '/' r1).flatMap fun (_, r2) =>
  (reD12 r2).flatMap fun (b, r3) =>
  (reLit '/' r3).flatMap fun (_, r4) =>
  (reD4cap r4).flatMap fun (c, r5) =>
  (reSpaces1 r5).flatMap fun (_, r6) =>
  (reD12 r6).flatMap fun (h, r7) =>
  (reLit ':' r7).flatMap fun (_, r8) =>
  (reD2cap r8).flatMap fun (mi, r9) =>
  (reSpaces0 r9).flatMap fun (_, r10) =>
  (reMeridiemOpt r10).map fun (p, _) =>
  (a ++ '/' :: b ++ '/' :: c, h ++ ':' :: mi, p)

/-- `(\d{4}-\d{2}-\d{2})\s+(\d{2}:\d{2}:\d{2})` at the current
position. -/
def matchP3At (l : List Char) : List SG :=
  (reD4cap l).flatMap fun (a, r1) =>
  (reLit '-' r1).flatMap fun (_, r2) =>
  (reD2cap r2).flatMap fun (b, r3) =>
  (reLit '-' r3).flatMap fun (_, r4) =>
  (reD2cap r4).flatMap fun (c, r5) =>
  (reSpaces1 r5).flatMap fun (_, r6) =>
  (reD2cap r6).flatMap fun (h, r7) =>
  (reLit ':' r7).flatMap fun (_, r8) =>
  (reD2cap r8).flatMap fun (mi, r9) =>
  (reLit ':' r9).flatMap fun (_, r10) =>
  (reD2cap r10).map fun (s, _) =>
  (a ++ '-' :: b ++ '-' :: c, h ++ ':' :: mi ++ ':' :: s, Option.none)

/-- `(\d{4}-\d{2}-\d{2})\s+(\d{2}:\d{2})` at the current position. -/
def matchP4At (l : List Char) : List SG :=
  (reD4cap l).flatMap fun (a, r1) =>
  (reLit '-' r1).flatMap fun (_, r2) =>
  (reD2cap r2).flatMap fun (b, r3) =>
  (reLit '-' r3).flatMap fun (_, r4) =>
  (reD2cap r4).flatMap fun (c, r5) =>
  (reSpaces1 r5).flatMap fun (_, r6) =>
  (reD2cap r6).flatMap fun (h, r7) =>
  (reLit ':' r7).flatMap fun (_, r8) =>
  (reD2cap r8).map fun (mi, _) =>
  (a ++ '-' :: b ++ '-' :: c, h ++ ':' :: mi, Option.none)

/-- `re.search`: try each start position left to right, returning the
first pattern candidate at the first position that matches. -/
def searchWith (m : List Char → List SG) : List Char → Option SG
  | [] => (m []).head?
  | c :: xs =>
    match (m (c :: xs)).head? with
    | some g => some g
    | Option.none => searchWith m xs

def searchP1 (l : List Char) : Option SG := searchWith matchP1At l
def searchP2 (l : List Char) : Option SG := searchWith matchP2At l
def searchP3 (l : List Char) : Option SG := searchWith matchP3At l
def searchP4 (l : List Char) : Option SG := searchWith matchP4At l

/-! ## `datetime.strptime` for the six formats the source uses -/

/-- `%m`: `1[0-2]|0[1-9]|[1-9]`. -/
def reDirM (l : List Char) : List (Nat × List Char) :=
  (match l with
   | '1' :: c :: r => if c = '0' ∨ c = '1' ∨ c = '2' then [(10 + digitVal c, r)] else []
   | _ => []) ++
  (match l with
   | '0' :: c :: r => if 49 ≤ c.toNat ∧ c.toNat ≤ 57 then [(digitVal c, r)] else []
   | _ => []) ++
  (match l with
   | c :: r => if 49 ≤ c.toNat ∧ c.toNat ≤ 57 then [(digitVal c, r)] else []
   | _ => [])

/-- `%d`: `3[01]|[12]\d|0[1-9]|[1-9]`. -/
def reDirD (l : List Char) : List (Nat × List Char) :=
  (match l with
   | '3' :: c :: r => if c = '0' ∨ c = '1' then [(30 + digitVal c, r)] else []
   | _ => []) ++
  (match l with
   | a :: c :: r => if (a = '1' ∨ a = '2') ∧ isDigitChar c then [(10 * digitVal a + digitVal c, r)] else []
   | _ => []) ++
  (match l with
   | '0' :: c :: r => if 49 ≤ c.toNat ∧ c.toNat ≤ 57 then [(digitVal c, r)] else []
   | _ => []) ++
  (match l with
   | c :: r => if 49 ≤ c.toNat ∧ c.toNat ≤ 57 then [(digitVal c, r)] else []
   | _ => [])

/-- `%Y`: `\d\d\d\d`. -/
def reDirY (l : List Char) : List (Nat × List Char) :=
  match l with
  | a :: b :: c :: d :: r =>
    if isDigitChar a && isDigitChar b && isDigitChar c && isDigitChar d then
      [(digitsToNat [a, b, c, d], r)]
    else []
  | _ => []

/-- `%H`: `2[0-3]|[0-1]\d|\d`. -/
def reDirH (l : List Char) : List (Nat × List Char) :=
  (match l with
   | '2' :: c :: r => if c = '0' ∨ c = '1' ∨ c = '2' ∨ c = '3' then [(20 + digitVal c, r)] else []
   | _ => []) ++
  (match l with
   | a :: c :: r => if (a = '0' ∨ a = '1') ∧ isDigitChar c then [(10 * digitVal a + digitVal c, r)] else []
   | _ => []) ++
  (match l with
   | c :: r => if isDigitChar c then [(digitVal c, r)] else []
   | _ => [])

/-- `%I`: `1[0-2]|0[1-9]|[1-9]`. -/
def reDirI (l : List Char) : List (Nat × List Char) := reDirM l

/-- `%M`: `[0-5]\d|\d`. -/
def reDirMin (l : List Char) : List (Nat × List Char) :=
  (match l with
   | a :: c :: r => if 48 ≤ a.toNat ∧ a.toNat ≤ 53 ∧ isDigitChar c then [(10 * digitVal a + digitVal c, r)] else []
   | _ => []) ++
  (match l with
   | c :: r => if isDigitChar c then [(digitVal c, r)] else []
   | _ => [])

/-- `%S`: `6[0-1]|[0-5]\d|\d`. -/
def reDirS (l : List Char) : List (Nat × List Char) :=
  (match l with
   | '6' :: c :: r => if c = '0' ∨ c = '1' then [(60 + digitVal c, r)] else []
   | _ => []) ++
  (match l with
   | a :: c :: r => if 48 ≤ a.toNat ∧ a.toNat ≤ 53 ∧ isDigitChar c then [(10 * digitVal a + digitVal c, r)] else []
   | _ => []) ++
  (match l with
   | c :: r => if isDigitChar c then [(digitVal c, r)] else []
   | _ => [])

/-- `%p`: `AM|PM`, case-insensitively; `true` means PM. -/
def reDirP (l : List Char) : List (Bool × List Char) :=
  match l with
  | a :: m :: r =>
    (if (a = 'A' ∨ a = 'a') ∧ (m = 'M' ∨ m = 'm') then [(false, r)] else []) ++
    (if (a = 'P' ∨ a = 'p') ∧ (m = 'M' ∨ m = 'm') then [(true, r)] else [])
  | _ => []

/-- CPython's 12-hour conversion for `%I` with `%p`. -/
def hour12to24 (i : Nat) (pm : Bool) : Nat :=
  if pm then (if i = 12 then 12 else i + 12) else (if i = 12 then 0 else i)

/-- Matches for `"%m/%d/%Y %I:%M:%S %p"` consuming the whole string. -/
def candsSlash12 (l : List Char) : List (Nat × Nat × Nat × Nat × Nat × Nat) :=
  (reDirM l).flatMap fun (m, r1) =>
  (reLit '/' r1).flatMap fun (_, r2) =>
  (reDirD r2).flatMap fun (d, r3) =>
  (reLit '/' r3).flatMap fun (_, r4) =>
  (reDirY r4).flatMap fun (y, r5) =>
  (reSpaces1 r5).flatMap fun (_, r6) =>
  (reDirI r6).flatMap fun (i, r7) =>
  (reLit ':' r7).flatMap fun (_, r8) =>
  (reDirMin r8).flatMap fun (mi, r9) =>
  (reLit ':' r9).flatMap fun (_, r10) =>
  (reDirS r10).flatMap fun (s, r11) =>
  (reSpaces1 r11).flatMap fun (_, r12) =>
  (reDirP r12).flatMap fun (p, r13) =>
  if r13 = [] then [(y, m, d, hour12to24 i p, mi, s)] else []

/-- Matches for `"%Y-%m-%d %I:%M:%S %p"` consuming the whole string. -/
def candsDash12 (l : List Char) : List (Nat × Nat × Nat × Nat × Nat × Nat) :=
  (reDirY l).flatMap fun (y, r1) =>
  (reLit '-' r1).flatMap fun (_, r2) =>
  (reDirM r2).flatMap fun (m, r3) =>
  (reLit '-' r3).flatMap fun (_, r4) =>
  (reDirD r4).flatMap fun (d, r5) =>
  (reSpaces1 r5).flatMap fun (_, r6) =>
  (reDirI r6).flatMap fun (i, r7) =>
  (reLit ':' r7).flatMap fun (_, r8) =>
  (reDirMin r8).flatMap fun (mi, r9) =>
  (reLit ':' r9).flatMap fun (_, r10) =>
  (reDirS r10).flatMap fun (s, r11) =>
  (reSpaces1 r11).flatMap fun (_, r12) =>
  (reDirP r12).flatMap fun (p, r13) =>
  if r13 = [] then [(y, m, d, hour12to24 i p, mi, s)] else []

/-- Matches for `"%m/%d/%Y %H:%M:%S"` consuming the whole string. -/
def candsSlashHMS (l : List Char) : List (Nat × Nat × Nat × Nat × Nat × Nat) :=
  (reDirM l).flatMap fun (m, r1) =>
  (reLit '/' r1).flatMap fun (_, r2) =>
  (reDirD r2).flatMap fun (d, r3) =>
  (reLit '/' r3).flatMap fun (_, r4) =>
  (reDirY r4).flatMap fun (y, r5) =>
  (reSpaces1 r5).flatMap fun (_, r6) =>
  (reDirH r6).flatMap fun (h, r7) =>
  (reLit ':' r7).flatMap fun (_, r8) =>
  (reDirMin r8).flatMap fun (mi, r9) =>
  (reLit ':' r9).flatMap fun (_, r10) =>
  (reDirS r10).flatMap fun (s, r11) =>
  if r11 = [] then [(y, m, d, h, mi, s)] else []

/-- Matches for `"%m/%d/%Y %H:%M"` consuming the whole string. -/
def candsSlashHM (l : List Char) : List (Nat × Nat × Nat × Nat × Nat × Nat) :=
  (reDirM l).flatMap fun (m, r1) =>
  (reLit '/' r1).flatMap fun (_, r2) =>
  (reDirD r2).flatMap fun (d, r3) =>
  (reLit '/' r3).flatMap fun (_, r4) =>
  (reDirY r4).flatMap fun (y, r5) =>
  (reSpaces1 r5).flatMap fun (_, r6) =>
  (reDirH r6).flatMap fun (h, r7) =>
  (reLit ':' r7).flatMap fun (_, r8) =>
  (reDirMin r8).flatMap fun (mi, r9) =>
  if r9 = [] then [(y, m, d, h, mi, 0)] else []

/-- Matches for `"%Y-%m-%d %H:%M:%S"` consuming the whole string. -/
def candsDashHMS (l : List Char) : List (Nat × Nat × Nat × Nat × Nat × Nat) :=
  (reDirY l).flatMap fun (y, r1) =>
  (reLit '-' r1).flatMap fun (_, r2) =>
  (reDirM r2).flatMap fun (m, r3) =>
  (reLit '-' r3).flatMap fun (_, r4) =>
  (reDirD r4).flatMap fun (d, r5) =>
  (reSpaces1 r5).flatMap fun (_, r6) =>
  (reDirH r6).flatMap fun (h, r7) =>
  (reLit ':' r7).flatMap fun (_, r8) =>
  (reDirMin r8).flatMap fun (mi, r9) =>
  (reLit ':' r9).flatMap fun (_, r10) =>
  (reDirS r10).flatMap fun (s, r11) =>
  if r11 = [] then [(y, m, d, h, mi, s)] else []

/-- Matches for `"%Y-%m-%d %H:%M"` consuming the whole string. -/
def candsDashHM (l : List Char) : List (Nat × Nat × Nat × Nat × Nat × Nat) :=
  (reDirY l).flatMap fun (y, r1) =>
  (reLit '-' r1).flatMap fun (_, r2) =>
  (reDirM r2).flatMap fun (m, r3) =>
  (reLit '-' r3).flatMap fun (_, r4) =>
  (reDirD r4).flatMap fun (d, r5) =>
  (reSpaces1 r5).flatMap fun (_, r6) =>
  (reDirH r6).flatMap fun (h, r7) =>
  (reLit ':' r7).flatMap fun (_, r8) =>
  (reDirMin r8).flatMap fun (mi, r9) =>
  if r9 = [] then [(y, m, d, h, mi, 0)] else []

/-- `datetime.strptime`: first regex match (backtracking order), then
the constructor validation.  `none` models `ValueError`. -/
def strptimeWith (cands : List Char → List (Nat × Nat × Nat × Nat × Nat × Nat)) (l : List Char) :
    Option PyDatetime :=
  (cands l).head?.bind fun (y, m, d, h, mi, s) => mkDatetimeChecked y m d h mi s

/-- The source's per-match branch: choose the `strptime` format from
the meridiem group, the date separator, and the number of
colon-separated components of the time text. -/
def applyStrptime (g : SG) : Except PyExc PyDatetime :=
  match g with
  | (g1, g2, g3) =>
    match g3 with
    | some g3v =>
      let ds := g1 ++ ' ' :: g2 ++ ' ' :: g3v
      if '/' ∈ g1 then ofOption (strptimeWith candsSlash12 ds)
      else ofOption (strptimeWith candsDash12 ds)
    | Option.none =>
      let ds := g1 ++ ' ' :: g2
      if '/' ∈ g1 then
        if ':' ∈ g2 ∧ g2.count ':' = 2 then ofOption (strptimeWith candsSlashHMS ds)
        else ofOption (strptimeWith candsSlashHM ds)
      else
        if ':' ∈ g2 ∧ g2.count ':' = 2 then ofOption (strptimeWith candsDashHMS ds)
        else ofOption (strptimeWith candsDashHM ds)

/-- The `for pattern in patterns` loop: stop at the first search hit
whose strict parse succeeds; a `ValueError` moves to the next pattern,
any other exception would propagate. -/
def patternLoop : List (List Char → Option SG) → List Char → Except PyExc (Option PyDatetime)
  | [], _ => .ok Option.none
  | p :: ps, l =>
    match p l with
    | Option.none => patternLoop ps l
    | some g =>
      match applyStrptime g with
      | .ok dt => .ok (some dt)
      | .error .valueError => patternLoop ps l
      | .error e => .error e

/-- `LCRAFloodDataScraper.parse_datetime`.  Sentinel/empty check, then
the guarded `fromisoformat` attempt whose bare `except` falls through,
then the four-pattern loop, then `None`. -/
def parse_datetime (text : Option String) : Except PyExc (Option PyDatetime) :=
  match text with
  | Option.none => .ok Option.none
  | some s =>
    let l := s.data
    if l = [] ∨ pyStripL l = [] ∨ l = ['/'] then .ok Option.none
    else
      match (if 'T' ∈ l then fromisoformat (isoClean l) else .error .otherError) with
      | .ok dt => .ok (some dt)
      | .error _ => patternLoop [searchP1, searchP2, searchP3, searchP4] l

/-- Bit length of a natural number, with explicit fuel (one bit per
halving step). -/
def bitLenAux : Nat → Nat → Nat
  | 0, _ => 0
  | fuel + 1, n => if n = 0 then 0 else bitLenAux fuel (n / 2) + 1

/-- Bit length of a natural number (`0` for zero). -/
def bitLen (n : Nat) : Nat := bitLenAux n n

/-- Round a natural number to 53 significant bits, to nearest, ties to
even — the mantissa rounding IEEE-754 binary64 performs when an int is
converted to a double.  Numbers of at most 53 bits are unchanged. -/
def roundMantissa (a : Nat) : Nat :=
  if 2 * (a % 2 ^ (bitLen a - 53)) > 2 ^ (bitLen a - 53) ∨
      (2 * (a % 2 ^ (bitLen a - 53)) = 2 ^ (bitLen a - 53) ∧
        (a / 2 ^ (bitLen a - 53)) % 2 = 1) then
    (a / 2 ^ (bitLen a - 53) + 1) * 2 ^ (bitLen a - 53)
  else (a / 2 ^ (bitLen a - 53)) * 2 ^ (bitLen a - 53)

/-- The double value `float()` produces from an in-range int: the
magnitude rounded to 53 significant bits, with the sign restored. -/
def roundToDouble (n : Int) : Rat :=
  if n < 0 then -((roundMantissa n.natAbs : Nat) : Rat) else ((roundMantissa n.natAbs : Nat) : Rat)

/-- Python `float()` on an int: raises `OverflowError` once the
rounded magnitude would reach `2 ^ 1024` — that is, for magnitudes at
or above the midpoint `2 ^ 1024 - 2 ^ 970` between the largest double
and `2 ^ 1024` — and otherwise rounds to the nearest double, ties to
even. -/
def floatOfInt (n : Int) : Except PyExc Rat :=
  if 2 ^ 1024 - 2 ^ 970 ≤ n.natAbs then .error .overflowError
  else .ok (roundToDouble n)

/-- `LCRAFloodDataScraper.parse_float`.  Mirrors the source line by
line: falsy/sentinel check, numeric fast path, text cleaning, and a
`float()` attempt whose `ValueError` is caught and mapped to `None`.
The numeric fast path `return float(text)` sits under no `try`, so the
`OverflowError` that `float()` raises on an out-of-range int
propagates to the caller. -/
def parse_float (v : PyVal) : Except PyExc (Option Rat) :=
  if pyFalsy v || isSentinelVal v then .ok Option.none
  else
    match v with
    | .int n =>
      match floatOfInt n with
      | .ok q => .ok (some q)
      | .error e => .error e
    | .float q => .ok (some q)
    | .str s =>
      let cleaned := cleanNumericL s.data
      if cleaned = [] then .ok Option.none
      else
        match ofOption (pyFloatOfClean cleaned) with
        | .ok q => .ok (some q)
        | .error .valueError => .ok Option.none
        | .error e => .error e
    | .none => .ok Option.none

/-- The characters that can appear in a time-of-day string accepted by
`parseTimeIso` (used to show a space never survives a successful
parse). -/
def timeCharOK (c : Char) : Bool :=
  isDigitChar c || c = ':' || c = '.' || c = '+' || c = '-'

/-! ## Helper lemmas -/

theorem dropWhile_all_nil {p : Char → Bool} : ∀ l : List Char, l.all p = true → l.dropWhile p = []
  | [], _ => rfl
  | c :: xs, h => by
    simp only [List.all_cons, Bool.and_eq_true] at h
    simp [List.dropWhile_cons, h.1, dropWhile_all_nil xs h.2]

theorem pyStripL_eq_nil_of_all {l : List Char} (h : l.all pyIsSpace = true) : pyStripL l = [] := by
  unfold pyStripL
  rw [dropWhile_all_nil l h]
  rfl

theorem ofOption_error {α : Type} {o : Option α} {e : PyExc} (h : ofOption o = .error e) :
    e = .valueError := by
  cases o with
  | none =>
    simp only [ofOption] at h
    exact (Except.error.inj h).symm
  | some a => simp [ofOption] at h

theorem applyStrptime_error {g : SG} {e : PyExc} (h : applyStrptime g = .error e) :
    e = .valueError := by
  obtain ⟨g1, g2, g3⟩ := g
  unfold applyStrptime at h
  cases g3 <;> dsimp only at h <;>
    [skip; skip] <;> first
    | (split at h <;> exact ofOption_error h)
    | (split at h <;> [split at h; split at h] <;> exact ofOption_error h)

theorem patternLoop_total : ∀ (ps : List (List Char → Option SG)) (l : List Char),
    ∃ o, patternLoop ps l = .ok o
  | [], _ => ⟨Option.none, rfl⟩
  | p :: ps, l => by
    unfold patternLoop
    cases hp : p l with
    | none =>
      dsimp only
      exact patternLoop_total ps l
    | some g =>
      dsimp only
      cases ha : applyStrptime g with
      | ok dt => exact ⟨some dt, rfl⟩
      | error e =>
        cases applyStrptime_error ha
        dsimp only
        exact patternLoop_total ps l

theorem bitLenAux_le : ∀ (fuel n k : Nat), n < 2 ^ k → bitLenAux fuel n ≤ k
  | 0, _, _, _ => by simp [bitLenAux]
  | fuel + 1, n, k, h => by
    unfold bitLenAux
    split
    · simp
    · rename_i h0
      have hk : k ≠ 0 := by
        rintro rfl
        simp only [pow_zero, Nat.lt_one_iff] at h
        exact h0 h
      have hdiv : n / 2 < 2 ^ (k - 1) := by
        rw [Nat.div_lt_iff_lt_mul (by norm_num)]
        calc n < 2 ^ k := h
        _ = 2 ^ (k - 1) * 2 := by
          rw [← pow_succ]
          congr 1
          omega
      have := bitLenAux_le fuel (n / 2) (k - 1) hdiv
      omega

theorem bitLen_le {n k : Nat} (h : n < 2 ^ k) : bitLen n ≤ k := bitLenAux_le n n k h

theorem roundMantissa_exact {a : Nat} (h : a ≤ 2 ^ 53) : roundMantissa a = a := by
  rcases Nat.lt_or_ge a (2 ^ 53) with hlt | hge
  · have hb : bitLen a ≤ 53 := bitLen_le hlt
    have he : bitLen a - 53 = 0 := by omega
    unfold roundMantissa
    rw [he]
    simp [Nat.mod_one, Nat.div_one]
  · have ha : a = 2 ^ 53 := le_antisymm h hge
    subst ha
    decide

theorem roundToDouble_exact {n : Int} (h : n.natAbs ≤ 2 ^ 53) :
    roundToDouble n = ((n : Int) : Rat) := by
  unfold roundToDouble
  rw [roundMantissa_exact h]
  split
  · rename_i hneg
    rw [Int.cast_natAbs, abs_of_neg hneg, Int.cast_neg, neg_neg]
  · rename_i hpos
    rw [Int.cast_natAbs, abs_of_nonneg (not_lt.1 hpos)]

/-! ## Claim theorems -/

/-- Claim C7: `normalize_number` returns no value for the empty string,
for `N/A` in every letter case (including the mixed cases `N/a` and
`n/A`, which escape the sentinel list but clean to the empty string),
for `--`, for `/`, and for an absent value. -/
theorem claim_C7_numeric_sentinels :
    parse_float (.str "") = .ok Option.none ∧
    parse_float (.str "N/A") = .ok Option.none ∧
    parse_float (.str "N/a") = .ok Option.none ∧
    parse_float (.str "n/A") = .ok Option.none ∧
    parse_float (.str "n/a") = .ok Option.none ∧
    parse_float (.str "--") = .ok Option.none ∧
    parse_float (.str "/") = .ok Option.none ∧
    parse_float PyVal.none = .ok Option.none := by
  decide

/-- Claim C2, counterexample: the numeric inputs `0` and `0.0` are
falsy in Python, so `parse_float`'s `if not text` guard returns no
value for them instead of the claimed `0.0`; and an int just above
`2 ^ 53` is rounded by `float()` (ties to even), so it is not returned
unchanged either. -/
theorem claim_C2_cx_zero_and_rounding :
    parse_float (.int 0) = .ok Option.none ∧
    parse_float (.float 0) = .ok Option.none ∧
    (.ok Option.none : Except PyExc (Option Rat)) ≠ .ok (some ((0 : Int) : Rat)) ∧
    parse_float (.int (2 ^ 53 + 1)) = .ok (some ((2 ^ 53 : Nat) : Rat)) ∧
    ((2 ^ 53 : Nat) : Rat) ≠ (((2 ^ 53 + 1 : Int)) : Rat) := by
  decide

/-- Claim C2, amended: every nonzero float input, and every nonzero
int input of magnitude at most `2 ^ 53` (the range where `float()` is
exact), bypasses text cleaning and is returned unchanged as a real
number.  Numeric zero hits the truthiness guard and yields no value;
larger ints are rounded to the nearest double, and ints at or beyond
`2 ^ 1024 - 2 ^ 970` make the unguarded `float()` raise
`OverflowError`. -/
theorem claim_C2_amended_exact_numeric_identity :
    (∀ n : Int, n ≠ 0 → n.natAbs ≤ 2 ^ 53 →
      parse_float (.int n) = .ok (some ((n : Int) : Rat))) ∧
    (∀ q : Rat, q ≠ 0 → parse_float (.float q) = .ok (some q)) := by
  constructor
  · intro n hn hle
    have h2 : (2 : Nat) ^ 53 < 2 ^ 1024 - 2 ^ 970 := by decide
    have hthr : ¬ (2 ^ 1024 - 2 ^ 970 ≤ n.natAbs) := not_le.2 (lt_of_le_of_lt hle h2)
    simp [parse_float, pyFalsy, isSentinelVal, hn, floatOfInt, hthr, roundToDouble_exact hle]
  · intro q hq
    simp [parse_float, pyFalsy, isSentinelVal, hq]

/-- Claim C2, witness for the amended statement at `7` and `25/10`. -/
theorem claim_C2_witness :
    parse_float (.int 7) = .ok (some ((7 : Int) : Rat)) ∧
    parse_float (.float (Rat.divInt 25 10)) = .ok (some (Rat.divInt 25 10)) :=
  ⟨claim_C2_amended_exact_numeric_identity.1 7 (by decide) (by decide),
   claim_C2_amended_exact_numeric_identity.2 (Rat.divInt 25 10) (by decide)⟩

/-- Claim C3, counterexample: the numeric fast path `return
float(text)` sits under no `try`, and Python's `float()` raises
`OverflowError` for an int beyond the double range, so
`normalize_number(10 ** 400)` — a number in the claim's stated domain
— propagates an exception instead of returning an optional real
number. -/
theorem claim_C3_cx_overflow :
    parse_float (.int (10 ^ 400)) = .error .overflowError := by
  decide

/-- Claim C3, amended: `normalize_number` returns an optional real
number and never raises for every string input, for an absent input,
for every float input, and for every int input whose magnitude stays
below the double overflow threshold `2 ^ 1024 - 2 ^ 970`; an int at or
beyond that threshold makes the unguarded `float()` call raise
`OverflowError`, which propagates to the caller. -/
theorem claim_C3_amended_total_below_overflow :
    (∀ s : String, (parse_float (.str s)).isOk = true) ∧
    (parse_float PyVal.none).isOk = true ∧
    (∀ q : Rat, (parse_float (.float q)).isOk = true) ∧
    (∀ n : Int, n.natAbs < 2 ^ 1024 - 2 ^ 970 → (parse_float (.int n)).isOk = true) := by
  refine ⟨?_, rfl, ?_, ?_⟩
  · intro s
    unfold parse_float
    split
    · rfl
    · dsimp only
      split
      · rfl
      · cases h : pyFloatOfClean (cleanNumericL s.data) with
        | none => simp [ofOption, h, Except.isOk, Except.toBool]
        | some q => simp [ofOption, h, Except.isOk, Except.toBool]
  · intro q
    unfold parse_float
    split
    · rfl
    · rfl
  · intro n hn
    unfold parse_float
    split
    · rfl
    · dsimp only
      have hthr : ¬ (2 ^ 1024 - 2 ^ 970 ≤ n.natAbs) := not_le.2 hn
      simp [floatOfInt, hthr, Except.isOk, Except.toBool]

/-- Claim C3, witness for the int clause of the amended statement at
`12`. -/
theorem claim_C3_witness : (parse_float (.int 12)).isOk = true :=
  claim_C3_amended_total_below_overflow.2.2.2 12 (by decide)

/-- Claim C9: `normalize_number` strips non-numeric noise before
parsing — `"681.3 ft"` yields `681.3` and `"1,234.5"` yields `1234.5`;
in general the cleaned text contains only digits, dots and minus signs,
and an input whose cleaned text is empty yields no value. -/
theorem claim_C9_noise_stripping :
    parse_float (.str "681.3 ft") = .ok (some (Rat.divInt 6813 10)) ∧
    parse_float (.str "1,234.5") = .ok (some (Rat.divInt 12345 10)) ∧
    (∀ s : String, cleanNumericL s.data = [] → parse_float (.str s) = .ok Option.none) ∧
    (∀ s : String, ∀ c ∈ cleanNumericL s.data, isDigitChar c = true ∨ c = '.' ∨ c = '-') := by
  refine ⟨by decide, by decide, ?_, ?_⟩
  · intro s h
    unfold parse_float
    split
    · rfl
    · simp [h]
  · intro s c hc
    have h2 := List.of_mem_filter hc
    simp only [Bool.or_eq_true, decide_eq_true_eq] at h2
    tauto

/-- Claim C9, witness for the universally quantified parts at the
input `"abc"` (cleaned text empty) and at `'6' ∈ cleanNumericL "681.3 ft"`. -/
theorem claim_C9_witness :
    parse_float (.str "abc") = .ok Option.none ∧
    (isDigitChar '6' = true ∨ '6' = '.' ∨ '6' = '-') :=
  ⟨claim_C9_noise_stripping.2.2.1 "abc" (by decide),
   claim_C9_noise_stripping.2.2.2 "681.3 ft" '6' (by decide)⟩

/-- Claim C8: `normalize_timestamp` returns no value for an absent
input, for the literal sentinel `/`, and for every empty or
whitespace-only string, before any parsing strategy runs. -/
theorem claim_C8_timestamp_sentinels :
    parse_datetime Option.none = .ok Option.none ∧
    parse_datetime (some "/") = .ok Option.none ∧
    (∀ s : String, s.data.all pyIsSpace = true → parse_datetime (some s) = .ok Option.none) := by
  refine ⟨rfl, by decide, ?_⟩
  intro s h
  have h2 : pyStripL s.data = [] := pyStripL_eq_nil_of_all h
  simp [parse_datetime, h2]

/-- Claim C8, witness for the whitespace clause at `"  "`. -/
theorem claim_C8_witness : parse_datetime (some "  ") = .ok Option.none :=
  claim_C8_timestamp_sentinels.2.2 "  " (by decide)

/-- Claim C4: `normalize_timestamp` is total — for every input
(absent or any string) it returns an optional point-in-time value and
no internal parse failure propagates; in particular `"garbage text"`
yields no value. -/
theorem claim_C4_parse_datetime_total :
    (∀ t : Option String, ∃ o, parse_datetime t = .ok o) ∧
    parse_datetime (some "garbage text") = .ok Option.none := by
  refine ⟨?_, by decide⟩
  intro t
  match t with
  | Option.none => exact ⟨Option.none, rfl⟩
  | some s =>
    unfold parse_datetime
    dsimp only
    split
    · exact ⟨Option.none, rfl⟩
    · split
      · exact ⟨_, rfl⟩
      · exact patternLoop_total _ _

/-- Claim C1: the design document says `"1/5/2024 1:45 PM"` parses to
2024-01-05 13:45:00, and the pattern list deliberately includes a
minutes-only slash pattern with an optional meridiem — but the
meridiem branch always uses the seconds-bearing format
`"%m/%d/%Y %I:%M:%S %p"`, so the strict parse raises `ValueError`, the
loop moves on, no other pattern matches, and the result is no value.
The second pattern does match with a non-empty meridiem group, as the
first conjunct shows. -/
theorem claim_C1_meridiem_minutes_only_yields_none :
    searchP2 ("1/5/2024 1:45 PM".data) =
      some ("1/5/2024".data, "1:45".data, some "PM".data) ∧
    parse_datetime (some "1/5/2024 1:45 PM") = .ok Option.none := by
  decide

/-- Claim C10, counterexample: `"Updated: 99/99/9999 99:99:99 CST"`
contains a substring matched by the first pattern (first conjunct), yet
`normalize_timestamp` rejects the whole input because the extracted
fields fail the strict parse — so "every string containing a
pattern-matching substring gets its embedded timestamp parsed" is
false. -/
theorem claim_C10_cx_invalid_fields :
    (searchP1 ("Updated: 99/99/9999 99:99:99 CST".data)).isSome = true ∧
    parse_datetime (some "Updated: 99/99/9999 99:99:99 CST") = .ok Option.none := by
  decide

/-- Claim C10, amended: the pattern fallback matches by substring
search rather than whole-string match, so a timestamp with valid
fields embedded in surrounding text is extracted and parsed —
`"Updated: 1/5/2024 13:45:30 CST"` yields 2024-01-05 13:45:30. -/
theorem claim_C10_amended_substring_extraction :
    parse_datetime (some "Updated: 1/5/2024 13:45:30 CST") =
      .ok (some ⟨2024, 1, 5, 13, 45, 30, 0, Option.none⟩) := by
  decide

/-! ## Naivety of every produced datetime (for claim C6) -/

theorem mkDatetimeChecked_naive {y mo d h mi s : Nat} {dt : PyDatetime}
    (hm : mkDatetimeChecked y mo d h mi s = some dt) : dt.tzoffset = Option.none := by
  unfold mkDatetimeChecked at hm
  split at hm
  · cases hm; rfl
  · exact Option.noConfusion hm

theorem strptimeWith_naive {c : List Char → List (Nat × Nat × Nat × Nat × Nat × Nat)}
    {l : List Char} {dt : PyDatetime} (h : strptimeWith c l = some dt) :
    dt.tzoffset = Option.none := by
  unfold strptimeWith at h
  cases hh : (c l).head? with
  | none => rw [hh] at h; exact Option.noConfusion h
  | some v =>
    rw [hh] at h
    obtain ⟨y, m, d, h2, mi, s⟩ := v
    exact mkDatetimeChecked_naive h

theorem ofOption_ok {α : Type} {o : Option α} {a : α} (h : ofOption o = .ok a) : o = some a := by
  cases o with
  | none => exact Except.noConfusion h
  | some b =>
    simp only [ofOption] at h
    injection h with h1
    rw [h1]

theorem applyStrptime_naive {g : SG} {dt : PyDatetime} (h : applyStrptime g = .ok dt) :
    dt.tzoffset = Option.none := by
  obtain ⟨g1, g2, g3⟩ := g
  unfold applyStrptime at h
  cases g3 <;> dsimp only at h <;>
    [skip; skip] <;> first
    | (split at h <;> exact strptimeWith_naive (ofOption_ok h))
    | (split at h <;> [split at h; split at h] <;> exact strptimeWith_naive (ofOption_ok h))

theorem patternLoop_naive : ∀ (ps : List (List Char → Option SG)) (l : List Char)
    {dt : PyDatetime}, patternLoop ps l = .ok (some dt) → dt.tzoffset = Option.none
  | [], _, dt, h => by
    unfold patternLoop at h
    injection h with h1
    exact Option.noConfusion h1
  | p :: ps, l, dt, h => by
    unfold patternLoop at h
    cases hp : p l with
    | none =>
      rw [hp] at h
      exact patternLoop_naive ps l h
    | some g =>
      rw [hp] at h
      dsimp only at h
      cases ha : applyStrptime g with
      | ok dt2 =>
        rw [ha] at h
        injection h with h1
        injection h1 with h2
        rw [← h2]
        exact applyStrptime_naive ha
      | error e =>
        rw [ha] at h
        cases e with
        | valueError => exact patternLoop_naive ps l h
        | overflowError => exact Except.noConfusion h
        | otherError => exact Except.noConfusion h

theorem not_mem_beforeFirst (c : Char) (l : List Char) : c ∉ beforeFirst c l := by
  intro h
  have h2 := List.mem_takeWhile_imp h
  simp at h2

theorem mem_beforeFirst_sub {c x : Char} {l : List Char} (h : x ∈ beforeFirst c l) : x ∈ l :=
  (List.takeWhile_sublist _).subset h

theorem isoTimePart_no_pm (l : List Char) : '+' ∉ isoTimePart l ∧ '-' ∉ isoTimePart l := by
  constructor
  · intro h
    exact not_mem_beforeFirst '+' _ (mem_beforeFirst_sub (mem_beforeFirst_sub h))
  · intro h
    exact not_mem_beforeFirst '-' _ (mem_beforeFirst_sub h)

theorem isoClean_decomp (l : List Char) :
    isoClean l = (beforeFirst 'T' l).filter (fun c => c ≠ 'Z') ++
      ' ' :: (isoTimePart l).filter (fun c => c ≠ 'Z') := by
  unfold isoClean
  rw [List.filter_append]
  congr 1

theorem parseFrac_rest {l : List Char} {us : Nat} {rest : List Char}
    (h : parseFrac l = some (us, rest)) : rest = l.dropWhile isDigitChar := by
  unfold parseFrac at h
  split at h
  · exact Option.noConfusion h
  · injection h with h1
    exact (congrArg Prod.snd h1).symm

theorem parseFrac_chars {l : List Char} {us : Nat} {rest : List Char}
    (h : parseFrac l = some (us, rest)) : ∀ c ∈ l, isDigitChar c = true ∨ c ∈ rest := by
  intro c hc
  rw [← List.takeWhile_append_dropWhile (p := isDigitChar) (l := l)] at hc
  rcases List.mem_append.1 hc with h2 | h2
  · exact Or.inl (List.mem_takeWhile_imp h2)
  · right
    rw [parseFrac_rest h]
    exact h2

theorem parseTzIso_pm {l : List Char} {z : Int} (h : parseTzIso l = some z) :
    '+' ∈ l ∨ '-' ∈ l := by
  unfold parseTzIso at h
  split at h
  · rename_i sign h1 h2 m1 m2 rest
    split at h
    · rename_i hcond
      rcases hcond.1 with hs | hs
      · left; rw [← hs]; exact List.mem_cons_self _ _
      · right; rw [← hs]; exact List.mem_cons_self _ _
    · exact Option.noConfusion h
  · exact Option.noConfusion h

theorem parseTzIso_chars {l : List Char} {z : Int} (h : parseTzIso l = some z) :
    ∀ c ∈ l, timeCharOK c = true := by
  unfold parseTzIso at h
  split at h
  · rename_i sign h1 h2 m1 m2 rest
    split at h
    · rename_i hcond
      obtain ⟨hs, hd1, hd2, hd3, hd4, -, -⟩ := hcond
      split at h
      · intro c hc
        simp only [List.mem_cons, List.not_mem_nil, or_false] at hc
        rcases hc with rfl | rfl | rfl | rfl | rfl | rfl <;>
          simp_all [timeCharOK] <;> rcases hs with rfl | rfl <;> simp [timeCharOK]
      · rename_i s1 s2
        split at h
        · rename_i hcond2
          obtain ⟨he1, he2, -⟩ := hcond2
          intro c hc
          simp only [List.mem_cons, List.not_mem_nil, or_false] at hc
          rcases hc with rfl | rfl | rfl | rfl | rfl | rfl | rfl | rfl | rfl <;>
            simp_all [timeCharOK] <;> rcases hs with rfl | rfl <;> simp [timeCharOK]
        · exact Option.noConfusion h
      · exact Option.noConfusion h
    · exact Option.noConfusion h
  · exact Option.noConfusion h

theorem digit_timeCharOK {c : Char} (h : isDigitChar c = true) : timeCharOK c = true := by
  simp [timeCharOK, h]

theorem parseTimeIso_struct {l : List Char} {hh mm ss us : Nat} {tz : Option Int}
    (h : parseTimeIso l = some (hh, mm, ss, us, tz)) :
    (∀ c ∈ l, timeCharOK c = true) ∧ (tz = Option.none ∨ '+' ∈ l ∨ '-' ∈ l) := by
  unfold parseTimeIso at h
  split at h
  case _ h1 h2 m1 m2 rest =>
    split at h
    case _ hcond =>
      obtain ⟨hd1, hd2, hd3, hd4, -, -⟩ := hcond
      split at h
      · -- rest = []
        simp only [Option.some.injEq, Prod.mk.injEq] at h
        refine ⟨?_, Or.inl h.2.2.2.2.symm⟩
        intro c hc
        simp only [List.mem_cons, List.not_mem_nil, or_false] at hc
        rcases hc with rfl | rfl | rfl | rfl | rfl <;> simp_all [timeCharOK]
      · -- rest = ':' :: s1 :: s2 :: rest2
        rename_i s1 s2 rest2
        split at h
        case _ hcond2 =>
          obtain ⟨he1, he2, -⟩ := hcond2
          split at h
          · -- rest2 = []
            simp only [Option.some.injEq, Prod.mk.injEq] at h
            refine ⟨?_, Or.inl h.2.2.2.2.symm⟩
            intro c hc
            simp only [List.mem_cons, List.not_mem_nil, or_false] at hc
            rcases hc with rfl | rfl | rfl | rfl | rfl | rfl | rfl | rfl <;>
              simp_all [timeCharOK]
          · -- rest2 = '.' :: rest3
            rename_i rest3
            cases hf : parseFrac rest3 with
            | none => rw [hf] at h; exact Option.noConfusion h
            | some v =>
              obtain ⟨us2, rest4⟩ := v
              rw [hf] at h
              dsimp only at h
              have hfc := parseFrac_chars hf
              split at h
              · -- rest4 = []
                have hfc3 : ∀ c ∈ rest3, timeCharOK c = true := by
                  intro c hc
                  rcases hfc c hc with hd | hin
                  · exact digit_timeCharOK hd
                  · exact absurd hin (List.not_mem_nil c)
                simp only [Option.some.injEq, Prod.mk.injEq] at h
                refine ⟨?_, Or.inl h.2.2.2.2.symm⟩
                intro c hc
                simp only [List.mem_cons] at hc
                rcases hc with rfl | rfl | rfl | rfl | rfl | rfl | rfl | rfl | rfl | hc <;>
                  simp_all [timeCharOK]
              · -- rest4 ≠ [] : offset suffix
                cases hz : parseTzIso rest4 with
                | none => rw [hz] at h; exact Option.noConfusion h
                | some z =>
                  rw [hz] at h
                  simp only [Option.map_some', Option.some.injEq, Prod.mk.injEq] at h
                  have htzc := parseTzIso_chars hz
                  have hpm := parseTzIso_pm hz
                  have hr4 : ∀ c, c ∈ rest4 → c ∈ rest3 := by
                    rw [parseFrac_rest hf]
                    exact fun c hc => (List.dropWhile_sublist _).subset hc
                  have hfc3 : ∀ c ∈ rest3, timeCharOK c = true := by
                    intro c hc
                    rcases hfc c hc with hd | hin
                    · exact digit_timeCharOK hd
                    · exact htzc c hin
                  constructor
                  · intro c hc
                    simp only [List.mem_cons] at hc
                    rcases hc with rfl | rfl | rfl | rfl | rfl | rfl | rfl | rfl | rfl | hc <;>
                      simp_all [timeCharOK]
                  · right
                    rcases hpm with hp | hp
                    · left
                      have : '+' ∈ rest3 := hr4 _ hp
                      simp only [List.mem_cons]
                      tauto
                    · right
                      have : '-' ∈ rest3 := hr4 _ hp
                      simp only [List.mem_cons]
                      tauto
          · -- rest2 is itself an offset suffix
            cases hz : parseTzIso rest2 with
            | none => rw [hz] at h; exact Option.noConfusion h
            | some z =>
              rw [hz] at h
              simp only [Option.map_some', Option.some.injEq, Prod.mk.injEq] at h
              have htzc := parseTzIso_chars hz
              have hpm := parseTzIso_pm hz
              constructor
              · intro c hc
                simp only [List.mem_cons] at hc
                rcases hc with rfl | rfl | rfl | rfl | rfl | rfl | rfl | rfl | hc <;>
                  simp_all [timeCharOK]
              · right
                rcases hpm with hp | hp
                · left
                  simp only [List.mem_cons]
                  tauto
                · right
                  simp only [List.mem_cons]
                  tauto
        case _ => exact Option.noConfusion h
      · -- rest is itself an offset suffix
        cases hz : parseTzIso rest with
        | none => rw [hz] at h; exact Option.noConfusion h
        | some z =>
          rw [hz] at h
          simp only [Option.map_some', Option.some.injEq, Prod.mk.injEq] at h
          have htzc := parseTzIso_chars hz
          have hpm := parseTzIso_pm hz
          constructor
          · intro c hc
            simp only [List.mem_cons] at hc
            rcases hc with rfl | rfl | rfl | rfl | rfl | hc <;>
              simp_all [timeCharOK]
          · right
            rcases hpm with hp | hp
            · left
              simp only [List.mem_cons]
              tauto
            · right
              simp only [List.mem_cons]
              tauto
    case _ => exact Option.noConfusion h
  case _ => exact Option.noConfusion h

theorem parseDate10_some_len {l : List Char} {v : Nat × Nat × Nat}
    (h : parseDate10 l = some v) : l.length = 10 := by
  unfold parseDate10 at h
  split at h
  · rename_i y1 y2 y3 y4 c1 mo1 mo2 c2 d1 d2
    rfl
  · exact Option.noConfusion h

theorem fromisoformat_naive {d t : List Char} (hp : '+' ∉ t) (hm : '-' ∉ t)
    {dt : PyDatetime} (h : fromisoformat (d ++ ' ' :: t) = .ok dt) :
    dt.tzoffset = Option.none := by
  unfold fromisoformat at h
  split at h
  · exact Except.noConfusion h
  · rename_i y mo dy hdate
    split at h
    · cases h
      rfl
    · rename_i sep tc hdrop
      split at h
      case _ hh mi ss us tz htime =>
        cases h
        show tz = Option.none
        have htc : tc = (d ++ ' ' :: t).drop 11 := by
          have h2 : ((d ++ ' ' :: t).drop 10).drop 1 = (d ++ ' ' :: t).drop 11 := by
            rw [List.drop_drop]
          rw [hdrop] at h2
          simpa using h2
        obtain ⟨hchars, hnone⟩ := parseTimeIso_struct htime
        rcases Nat.lt_or_ge d.length 11 with hlen | hlen
        · -- tc is a suffix of t: no offset sign can occur
          have hsub : ∀ c, c ∈ tc → c ∈ t := by
            intro c hc
            rw [htc, List.drop_append_eq_append_drop,
              List.drop_eq_nil_of_le (by omega), List.nil_append] at hc
            have he : (11 - d.length) = (10 - d.length) + 1 := by omega
            rw [he, List.drop_succ_cons] at hc
            exact List.mem_of_mem_drop hc
          rcases hnone with h0 | h0 | h0
          · exact h0
          · exact absurd (hsub _ h0) hp
          · exact absurd (hsub _ h0) hm
        · -- the inserted space lands inside tc: the time parse cannot succeed
          have hsp : ' ' ∈ tc := by
            rw [htc, List.drop_append_eq_append_drop]
            have he : 11 - d.length = 0 := by omega
            rw [he]
            exact List.mem_append.2 (Or.inr (List.mem_cons_self _ _))
          have := hchars ' ' hsp
          simp [timeCharOK, isDigitChar] at this
      case _ => exact Except.noConfusion h

/-- Claim C6: `"2024-01-05T13:45:00-06:00"` parses to 2024-01-05
13:45:00 with the trailing offset discarded, and every non-absent
result of `normalize_timestamp` is timezone-naive: the ISO cleaning
removes `+`, `-` and `Z` from the time portion so `fromisoformat`
can never attach an offset, and `strptime` formats carry no offset
directive. -/
theorem claim_C6_offset_discarded_naive :
    parse_datetime (some "2024-01-05T13:45:00-06:00") =
      .ok (some ⟨2024, 1, 5, 13, 45, 0, 0, Option.none⟩) ∧
    (∀ (t : Option String) (dt : PyDatetime),
      parse_datetime t = .ok (some dt) → dt.tzoffset = Option.none) := by
  refine ⟨by decide, ?_⟩
  intro t dt h
  match t with
  | Option.none => simp [parse_datetime] at h
  | some s =>
    unfold parse_datetime at h
    dsimp only at h
    split at h
    · simp at h
    · split at h
      case _ dt2 hiso =>
        injection h with h1
        injection h1 with h2
        rw [← h2]
        by_cases hT : 'T' ∈ s.data
        · rw [if_pos hT] at hiso
          rw [isoClean_decomp] at hiso
          exact fromisoformat_naive
            (fun hc => (isoTimePart_no_pm s.data).1 (List.mem_of_mem_filter hc))
            (fun hc => (isoTimePart_no_pm s.data).2 (List.mem_of_mem_filter hc)) hiso
        · rw [if_neg hT] at hiso
          exact Except.noConfusion hiso
      case _ e he => exact patternLoop_naive _ _ h

/-- Claim C6, witness: the universal naivety clause applied at the
concrete ISO input with an offset. -/
theorem claim_C6_witness :
    (⟨2024, 1, 5, 13, 45, 0, 0, Option.none⟩ : PyDatetime).tzoffset = Option.none :=
  claim_C6_offset_discarded_naive.2 (some "2024-01-05T13:45:00-06:00")
    ⟨2024, 1, 5, 13, 45, 0, 0, Option.none⟩ (by decide)

/-! ## Decimal rendering round-trip (for claim C5) -/

theorem digitChar_val {d : Nat} (h : d < 10) : digitVal (digitChar d) = d := by
  interval_cases d <;> rfl

theorem digitChar_isDigit {d : Nat} (h : d < 10) : isDigitChar (digitChar d) = true := by
  interval_cases d <;> decide

theorem digitsAuxLE_all : ∀ (fuel n : Nat), ∀ c ∈ digitsAuxLE fuel n, isDigitChar c = true
  | 0, _, c, hc => absurd hc (List.not_mem_nil c)
  | fuel + 1, n, c, hc => by
    unfold digitsAuxLE at hc
    split at hc
    · exact absurd hc (List.not_mem_nil c)
    · rcases List.mem_cons.1 hc with rfl | hc2
      · exact digitChar_isDigit (Nat.mod_lt _ (by norm_num))
      · exact digitsAuxLE_all fuel (n / 10) c hc2

theorem ofDigitsLE_digitsAuxLE : ∀ (fuel n : Nat), n < 10 ^ fuel →
    ofDigitsLE (digitsAuxLE fuel n) = n
  | 0, n, h => by
    simp only [pow_zero, Nat.lt_one_iff] at h
    subst h
    rfl
  | fuel + 1, n, h => by
    unfold digitsAuxLE
    split
    · rename_i h0
      rw [h0]
      rfl
    · rename_i h0
      have hdiv : n / 10 < 10 ^ fuel := by
        rw [Nat.div_lt_iff_lt_mul (by norm_num)]
        calc n < 10 ^ (fuel + 1) := h
        _ = 10 ^ fuel * 10 := by rw [pow_succ]
      show 10 * ofDigitsLE (digitsAuxLE fuel (n / 10)) + digitVal (digitChar (n % 10)) = n
      rw [digitChar_val (Nat.mod_lt _ (by norm_num)), ofDigitsLE_digitsAuxLE fuel (n / 10) hdiv]
      omega

theorem digitsToNat_reverse (l : List Char) : digitsToNat l.reverse = ofDigitsLE l := by
  unfold digitsToNat ofDigitsLE
  rw [List.foldl_reverse]

theorem digitsToNat_natDigitsBE (n : Nat) : digitsToNat (natDigitsBE n) = n := by
  unfold natDigitsBE
  split
  · rename_i h
    rw [h]
    rfl
  · rw [digitsToNat_reverse]
    refine ofDigitsLE_digitsAuxLE _ _ ?_
    calc n < 10 ^ n := Nat.lt_pow_self (by norm_num) n
    _ ≤ 10 ^ (n + 1) := Nat.pow_le_pow_right (by norm_num) (Nat.le_succ n)

theorem natDigitsBE_all (n : Nat) : ∀ c ∈ natDigitsBE n, isDigitChar c = true := by
  unfold natDigitsBE
  split
  · intro c hc
    simp only [List.mem_singleton] at hc
    subst hc
    decide
  · intro c hc
    rw [List.mem_reverse] at hc
    exact digitsAuxLE_all _ _ c hc

theorem natDigitsBE_ne_nil (n : Nat) : natDigitsBE n ≠ [] := by
  unfold natDigitsBE
  split
  · simp
  · rename_i h
    simp only [ne_eq, List.reverse_eq_nil_iff]
    unfold digitsAuxLE
    simp [h]

theorem digitsAuxLE_length : ∀ (fuel n k : Nat), n < 10 ^ k → (digitsAuxLE fuel n).length ≤ k
  | 0, _, _, _ => by simp [digitsAuxLE]
  | fuel + 1, n, k, h => by
    unfold digitsAuxLE
    split
    · simp
    · rename_i h0
      simp only [List.length_cons]
      have hk : k ≠ 0 := by
        rintro rfl
        simp only [pow_zero, Nat.lt_one_iff] at h
        exact h0 h
      have hdiv : n / 10 < 10 ^ (k - 1) := by
        rw [Nat.div_lt_iff_lt_mul (by norm_num)]
        calc n < 10 ^ k := h
        _ = 10 ^ (k - 1) * 10 := by
          rw [← pow_succ]
          congr 1
          omega
      have := digitsAuxLE_length fuel (n / 10) (k - 1) hdiv
      omega

theorem natDigitsBE_length_le {n k : Nat} (hk : 1 ≤ k) (h : n < 10 ^ k) :
    (natDigitsBE n).length ≤ k := by
  unfold natDigitsBE
  split
  · simpa using hk
  · rw [List.length_reverse]
    exact digitsAuxLE_length _ _ _ h

theorem digitsToNat_padZeros (k : Nat) (l : List Char) :
    digitsToNat (padZeros k l) = digitsToNat l := by
  unfold padZeros digitsToNat
  generalize k - l.length = m
  induction m with
  | zero => rfl
  | succ m2 ih =>
    rw [List.replicate_succ, List.cons_append, List.foldl_cons]
    have h0 : (10 * 0 + digitVal '0') = 0 := rfl
    rw [h0]
    exact ih

theorem padZeros_length {k : Nat} {l : List Char} (h : l.length ≤ k) :
    (padZeros k l).length = k := by
  unfold padZeros
  simp only [List.length_append, List.length_replicate]
  omega

theorem padZeros_all_digits {k : Nat} {l : List Char} (h : ∀ c ∈ l, isDigitChar c = true) :
    ∀ c ∈ padZeros k l, isDigitChar c = true := by
  intro c hc
  unfold padZeros at hc
  rcases List.mem_append.1 hc with h2 | h2
  · rw [List.eq_of_mem_replicate h2]
    decide
  · exact h c h2

theorem decExp?_dvd {q : Rat} {k : Nat} (h : decExp? q = some k) : q.den ∣ 10 ^ k := by
  unfold decExp? at h
  split at h
  · rename_i hden
    injection h with h1
    rw [hden, ← h1]
    calc 2 ^ countFactor 2 q.den q.den * 5 ^ countFactor 5 q.den q.den
        ∣ 2 ^ max (countFactor 2 q.den q.den) (countFactor 5 q.den q.den) *
          5 ^ max (countFactor 2 q.den q.den) (countFactor 5 q.den q.den) :=
        mul_dvd_mul (pow_dvd_pow 2 (le_max_left _ _)) (pow_dvd_pow 5 (le_max_right _ _))
      _ = 10 ^ max (countFactor 2 q.den q.den) (countFactor 5 q.den q.den) := by
        rw [← mul_pow]
        norm_num
  · exact Option.noConfusion h

theorem divInt_scaled_abs {q : Rat} {k : Nat} (hden : q.den ∣ 10 ^ k) :
    Rat.divInt ((scaled10 q k : Nat) : Int) (((10 ^ k : Nat) : Nat) : Int) = |q| := by
  obtain ⟨c, hc⟩ := hden
  have hc0 : c ≠ 0 := by
    rintro rfl
    rw [Nat.mul_zero] at hc
    exact pow_ne_zero k (by norm_num : (10 : Nat) ≠ 0) hc
  have hdpos : 0 < q.den := q.pos
  unfold scaled10
  rw [hc, Nat.mul_div_cancel_left c hdpos, Rat.divInt_eq_div]
  push_cast [Int.cast_natAbs]
  rw [mul_div_mul_right _ _ (by exact_mod_cast hc0 : ((c : Nat) : Rat) ≠ 0)]
  have habs : |((q.num : Int) : Rat)| / ((q.den : Nat) : Rat) = |((q.num : Int) : Rat) / ((q.den : Nat) : Rat)| := by
    rw [abs_div, abs_of_pos (by exact_mod_cast hdpos : (0 : Rat) < ((q.den : Nat) : Rat))]
  rw [habs, Rat.num_div_den]

theorem fixedRange_iff (q : Rat) :
    ((1 : Rat) / 10000 ≤ |q| ∧ |q| < (10 : Rat) ^ 16) ↔
      (q.den ≤ 10000 * q.num.natAbs ∧ q.num.natAbs < 10 ^ 16 * q.den) := by
  have habs : |q| = Rat.divInt (q.num.natAbs : Int) (q.den : Int) := Rat.abs_def q
  have h1 : (1 : Rat) / 10000 = Rat.divInt 1 10000 := by
    rw [Rat.divInt_eq_div]
    norm_num
  have h2 : ((10 : Rat) ^ 16) = Rat.divInt (10 ^ 16) 1 := by
    rw [Rat.divInt_eq_div]
    norm_num
  rw [habs, h1, h2, Rat.divInt_le_divInt (by norm_num) (by exact_mod_cast q.pos),
    lt_iff_not_le, Rat.divInt_le_divInt (by norm_num) (by exact_mod_cast q.pos)]
  omega

theorem digit_ne_minus {c : Char} (h : isDigitChar c = true) : ¬ c = '-' := by
  rintro rfl
  exact absurd h (by decide)

theorem parseUnsignedDec_digits {ip fr : List Char}
    (hip : ∀ c ∈ ip, isDigitChar c = true) (hipne : ip ≠ [])
    (hfr : ∀ c ∈ fr, isDigitChar c = true) :
    parseUnsignedDec (ip ++ '.' :: fr) =
      some (Rat.divInt ((digitsToNat ip * 10 ^ fr.length + digitsToNat fr : Nat) : Int)
        (((10 ^ fr.length : Nat) : Nat) : Int)) := by
  have hdot : ¬ (isDigitChar '.' = true) := by decide
  unfold parseUnsignedDec
  rw [List.dropWhile_append_of_pos hip, List.dropWhile_cons_of_neg hdot]
  dsimp only
  rw [List.takeWhile_append_of_pos hip, List.takeWhile_cons_of_neg hdot, List.append_nil]
  rw [if_pos rfl, if_pos ⟨List.all_eq_true.2 hfr, Or.inl hipne⟩]

theorem pyFloatOfClean_fixedRender {q : Rat} {k : Nat} (hk : 1 ≤ k) (hq : q ≠ 0)
    (hden : q.den ∣ 10 ^ k) :
    pyFloatOfClean (fixedRender q k) = some q := by
  have hpos10 : 0 < (10 : Nat) ^ k := Nat.pos_pow_of_pos _ (by norm_num)
  have hip : ∀ c ∈ natDigitsBE (scaled10 q k / 10 ^ k), isDigitChar c = true := natDigitsBE_all _
  have hfr : ∀ c ∈ padZeros k (natDigitsBE (scaled10 q k % 10 ^ k)), isDigitChar c = true :=
    padZeros_all_digits (natDigitsBE_all _)
  have hlen : (padZeros k (natDigitsBE (scaled10 q k % 10 ^ k))).length = k :=
    padZeros_length (natDigitsBE_length_le hk (Nat.mod_lt _ hpos10))
  have hparse := parseUnsignedDec_digits hip (natDigitsBE_ne_nil _) hfr
  rw [digitsToNat_natDigitsBE, digitsToNat_padZeros, digitsToNat_natDigitsBE, hlen,
    Nat.div_add_mod', divInt_scaled_abs hden] at hparse
  have hhead : ∀ (b : List Char), pyFloatOfClean (natDigitsBE (scaled10 q k / 10 ^ k) ++ b) =
      parseUnsignedDec (natDigitsBE (scaled10 q k / 10 ^ k) ++ b) := by
    intro b
    cases hshape : natDigitsBE (scaled10 q k / 10 ^ k) with
    | nil => exact absurd hshape (natDigitsBE_ne_nil _)
    | cons c0 rest0 =>
      have hc0 : isDigitChar c0 = true := hip c0 (by rw [hshape]; exact List.mem_cons_self _ _)
      rw [List.cons_append]
      have hstep : pyFloatOfClean (c0 :: (rest0 ++ b)) =
          if c0 = '-' then Option.map (fun x => -x) (parseUnsignedDec (rest0 ++ b))
          else parseUnsignedDec (c0 :: (rest0 ++ b)) := rfl
      rw [hstep, if_neg (digit_ne_minus hc0)]
  unfold fixedRender
  rcases lt_trichotomy q 0 with hlt | heq | hgt
  · rw [if_pos hlt, List.singleton_append, List.cons_append]
    have hstep : pyFloatOfClean ('-' :: (natDigitsBE (scaled10 q k / 10 ^ k) ++
        '.' :: padZeros k (natDigitsBE (scaled10 q k % 10 ^ k)))) =
        Option.map (fun x => -x)
          (parseUnsignedDec (natDigitsBE (scaled10 q k / 10 ^ k) ++
            '.' :: padZeros k (natDigitsBE (scaled10 q k % 10 ^ k)))) := rfl
    rw [hstep, hparse]
    simp only [Option.map_some']
    rw [abs_of_neg hlt, neg_neg]
  · exact absurd heq hq
  · rw [if_neg (not_lt.2 hgt.le), List.nil_append, hhead, hparse, abs_of_pos hgt]

theorem pyStripL_eq_self {l : List Char} (h : ∀ c ∈ l, pyIsSpace c = false) : pyStripL l = l := by
  unfold pyStripL
  have h1 : l.dropWhile pyIsSpace = l := by
    cases l with
    | nil => rfl
    | cons c xs =>
      rw [List.dropWhile_cons_of_neg]
      simp [h c (List.mem_cons_self _ _)]
  rw [h1]
  have h2 : l.reverse.dropWhile pyIsSpace = l.reverse := by
    cases hrev : l.reverse with
    | nil => rfl
    | cons c xs =>
      rw [List.dropWhile_cons_of_neg]
      have hc : c ∈ l := by
        rw [← List.mem_reverse, hrev]
        exact List.mem_cons_self _ _
      simp [h c hc]
  rw [h2, List.reverse_reverse]

theorem cleanNumericL_keep {l : List Char}
    (hd : ∀ c ∈ l, isDigitChar c = true ∨ c = '.' ∨ c = '-') : cleanNumericL l = l := by
  unfold cleanNumericL
  have hns : ∀ c ∈ l, pyIsSpace c = false := by
    intro c hc
    rcases hd c hc with h | h | h
    · simp only [isDigitChar, Bool.and_eq_true, decide_eq_true_eq] at h
      simp only [pyIsSpace, Bool.or_eq_false_iff, beq_eq_false_iff_ne, ne_eq]
      omega
    · subst h; decide
    · subst h; decide
  rw [pyStripL_eq_self hns]
  refine List.filter_eq_self.2 ?_
  intro a ha
  rcases hd a ha with h | h | h <;> simp [h]

theorem fixedRender_chars {q : Rat} {k : Nat} :
    ∀ c ∈ fixedRender q k, isDigitChar c = true ∨ c = '.' ∨ c = '-' := by
  intro c hc
  unfold fixedRender at hc
  rcases List.mem_append.1 hc with h1 | h2
  · rcases List.mem_append.1 h1 with h3 | h4
    · split at h3
      · simp only [List.mem_singleton] at h3
        subst h3
        right; right; rfl
      · exact absurd h3 (List.not_mem_nil c)
    · exact Or.inl (natDigitsBE_all _ c h4)
  · rcases List.mem_cons.1 h2 with rfl | h5
    · right; left; rfl
    · exact Or.inl (padZeros_all_digits (natDigitsBE_all _) c h5)

theorem dot_mem_fixedRender (q : Rat) (k : Nat) : '.' ∈ fixedRender q k := by
  unfold fixedRender
  simp [List.mem_append]

theorem fixedRender_ne_nil (q : Rat) (k : Nat) : fixedRender q k ≠ [] := by
  intro h
  have hd := dot_mem_fixedRender q k
  rw [h] at hd
  exact List.not_mem_nil _ hd

theorem fixedRender_not_sentinel (q : Rat) (k : Nat) : fixedRender q k ∉ sentinelStrs := by
  intro hmem
  have hdot := dot_mem_fixedRender q k
  unfold sentinelStrs at hmem
  simp only [List.mem_cons, List.not_mem_nil, or_false] at hmem
  rcases hmem with h | h | h | h <;> rw [h] at hdot <;> exact absurd hdot (by decide)

/-- Claim C5, counterexample: `normalize_number("10000000000000000")`
is `1e16`, whose decimal string rendering is `"1e+16"`; re-normalizing
that rendering strips the `e` and `+` during cleaning and yields
`116.0`, not `1e16` — so `normalize_number(str(normalize_number(x)))`
differs from `normalize_number(x)` at this input. -/
theorem claim_C5_cx_1e16 :
    parse_float (.str "10000000000000000") = .ok (some (Rat.divInt (10 ^ 16) 1)) ∧
    pyStr (Rat.divInt (10 ^ 16) 1) = "1e+16" ∧
    parse_float (.str (pyStr (Rat.divInt (10 ^ 16) 1))) = .ok (some (Rat.divInt 116 1)) ∧
    Rat.divInt 116 1 ≠ Rat.divInt (10 ^ 16) 1 := by
  decide

/-- Claim C5, amended: `normalize_number` is idempotent through the
decimal string rendering whenever the first result is rendered in
fixed notation — that is, when it is zero or its magnitude lies in
`[1e-4, 1e16)` (and it is an exact decimal, as every Python float is).
Results rendered in scientific notation (magnitude at least `1e16` or
below `1e-4`) are corrupted by the cleaning step, as the
counterexample shows. -/
theorem claim_C5_amended_fixed_range_idempotent (v : PyVal) (r : Rat)
    (hres : parse_float v = .ok (some r))
    (hfin : (decExp? r).isSome = true)
    (hrange : r = 0 ∨ ((1 : Rat) / 10000 ≤ |r| ∧ |r| < (10 : Rat) ^ 16)) :
    parse_float (.str (pyStr r)) = .ok (some r) := by
  rcases hrange with rfl | hrange
  · decide
  · have hq0 : r ≠ 0 := by
      intro h0
      rw [h0] at hrange
      rcases hrange with ⟨ha, -⟩
      rw [abs_zero] at ha
      norm_num at ha
    obtain ⟨k0, hk0⟩ := Option.isSome_iff_exists.1 hfin
    have hdvd : r.den ∣ 10 ^ (max k0 1) :=
      (decExp?_dvd hk0).trans (pow_dvd_pow 10 (le_max_left _ _))
    have hrender : pyStr r = ⟨fixedRender r (max k0 1)⟩ := by
      unfold pyStr
      rw [if_neg hq0, hk0]
      dsimp only
      rw [if_pos ((fixedRange_iff r).1 hrange)]
    rw [hrender]
    have hchars := fixedRender_chars (q := r) (k := max k0 1)
    have hguard : (pyFalsy (.str ⟨fixedRender r (max k0 1)⟩) ||
        isSentinelVal (.str ⟨fixedRender r (max k0 1)⟩)) = false := by
      simp only [pyFalsy, isSentinelVal, Bool.or_eq_false_iff, decide_eq_false_iff_not]
      exact ⟨fixedRender_ne_nil _ _, fixedRender_not_sentinel _ _⟩
    unfold parse_float
    rw [if_neg (by rw [hguard]; exact Bool.false_ne_true)]
    dsimp only
    rw [cleanNumericL_keep hchars, if_neg (fixedRender_ne_nil _ _),
      pyFloatOfClean_fixedRender (le_max_right _ _) hq0 hdvd]
    rfl

/-- Claim C5, witness for the amended statement at the already-clean
numeric string `"2.5"`, whose result `5/2` lies in the fixed range. -/
theorem claim_C5_witness :
    parse_float (.str (pyStr (Rat.divInt 25 10))) = .ok (some (Rat.divInt 25 10)) :=
  claim_C5_amended_fixed_range_idempotent (.str "2.5") (Rat.divInt 25 10) (by decide) (by decide)
    (Or.inr ((fixedRange_iff (Rat.divInt 25 10)).2 (by decide)))
